import Mathlib

/-!
Verification of the stage-metrics computation engine of the retail markdown
analytics dashboard (`streamlit_app.py` together with `src/data_loading.py`
and the engine module `src/markdown_metrics.py`).

Numeric quantities are modelled by `ℚ`: every value at stake is produced from
the input by the four arithmetic operations, and the verified properties are
algebraic (exact formulas, regrouping of sums, argmax and tie-breaks), not
floating-point rounding facts.
-/

/-- One of the four fixed, ordered markdown checkpoints `M1 … M4`. -/
inductive Stage where
  | M1
  | M2
  | M3
  | M4
deriving DecidableEq, Repr

/-- Position of a stage in the canonical order `M1 < M2 < M3 < M4` (the order
in which pandas sorts the stage labels `"M1" … "M4"`). -/
def Stage.idx : Stage → ℕ
  | .M1 => 0
  | .M2 => 1
  | .M3 => 2
  | .M4 => 3

/-- The stage domain in canonical order, as used by
`.reindex(["M1", "M2", "M3", "M4"])` in `streamlit_app.py`. -/
def Stage.all : List Stage := [.M1, .M2, .M3, .M4]

/-- One row of the product catalog (spec §3), the wide per-product record. -/
structure ProductRecord where
  product_id : String
  product_name : String
  category : String
  season : String
  brand : String
  original_price : ℚ
  competitor_price : ℚ
  seasonality_factor : ℚ
  stock_level : ℕ
  customer_rating : ℚ
  return_rate : ℚ
  promotion_type : String
  optimal_discount : ℚ
  markdown_1 : ℚ
  markdown_2 : ℚ
  markdown_3 : ℚ
  markdown_4 : ℚ
  sales_after_1 : ℚ
  sales_after_2 : ℚ
  sales_after_3 : ℚ
  sales_after_4 : ℚ
deriving DecidableEq, Repr

/-- The markdown fraction of a record at a given stage. -/
def ProductRecord.markdownAt (p : ProductRecord) : Stage → ℚ
  | .M1 => p.markdown_1
  | .M2 => p.markdown_2
  | .M3 => p.markdown_3
  | .M4 => p.markdown_4

/-- The units sold of a record at a given stage. -/
def ProductRecord.salesAt (p : ProductRecord) : Stage → ℚ
  | .M1 => p.sales_after_1
  | .M2 => p.sales_after_2
  | .M3 => p.sales_after_3
  | .M4 => p.sales_after_4

/-- One derived row per (product, stage) of the long metrics table
`metrics_long`.  The columns are the ones `streamlit_app.py` reads from it:
`Product_Name`, `Brand`, `Category`, `Season`, `Stage`, `Markdown`, `Sales`,
`Revenue`, `Sell_through`, plus the `product_id` back-reference of spec §3. -/
structure StageMetric where
  product_id : String
  product_name : String
  brand : String
  category : String
  season : String
  stage : Stage
  markdown : ℚ
  sales : ℚ
  revenue : ℚ
  sell_through : ℚ
deriving DecidableEq, Repr

/-- Modelled from the spec: the per-stage row derivation of
`compute_stage_metrics` (module `src/markdown_metrics.py`, absent from the
sources; only its caller `streamlit_app.py` is present).  It follows the
derivation block of spec §3, which the app itself also displays
(`streamlit_app.py` line 195):
`Revenue = Original_Price × (1 − Markdown_i) × Sales_After_Mi`, and
`sell_through = sales_after_i / stock_level` guarded to `0` at zero stock. -/
def stageMetricOf (p : ProductRecord) (s : Stage) : StageMetric :=
  { product_id := p.product_id
    product_name := p.product_name
    brand := p.brand
    category := p.category
    season := p.season
    stage := s
    markdown := p.markdownAt s
    sales := p.salesAt s
    revenue := p.original_price * (1 - p.markdownAt s) * p.salesAt s
    sell_through := if 0 < p.stock_level then p.salesAt s / (p.stock_level : ℚ) else 0 }

/-- The four stage rows of one record, in stage order `M1, M2, M3, M4`. -/
def stageRowsOf (p : ProductRecord) : List StageMetric :=
  Stage.all.map (stageMetricOf p)

/-- Modelled from the spec: the expander
`compute_stage_metrics(df) -> metrics_long` of the absent module
`src/markdown_metrics.py`, spec §4.1: each record of the catalog contributes
its four stage rows consecutively, in catalog order. -/
def compute_stage_metrics (catalog : List ProductRecord) : List StageMetric :=
  catalog.flatMap stageRowsOf

/-- The sidebar filter on the raw catalog (`filtered_df`,
`streamlit_app.py` lines 89–92): keep the records whose category and season
are both selected. -/
def filterCatalog (cats seasons : List String) (catalog : List ProductRecord) :
    List ProductRecord :=
  catalog.filter fun p => decide (p.category ∈ cats ∧ p.season ∈ seasons)

/-- The same sidebar filter applied to the long metrics table
(`filtered_long`, `streamlit_app.py` lines 93–96). -/
def filterLong (cats seasons : List String) (ms : List StageMetric) :
    List StageMetric :=
  ms.filter fun r => decide (r.category ∈ cats ∧ r.season ∈ seasons)

/-- Summed revenue of the rows of one (category, stage) group. -/
def revenueSumFor (ms : List StageMetric) (c : String) (s : Stage) : ℚ :=
  ((ms.filter fun r => decide (r.category = c ∧ r.stage = s)).map (·.revenue)).sum

/-- The (category, stage) group keys occurring in a metrics table.  pandas
emits the keys sorted; the result is read as a mapping, so only the key set
matters and first-occurrence order is used here. -/
def catStageKeys (ms : List StageMetric) : List (String × Stage) :=
  (ms.map fun r => (r.category, r.stage)).dedup

/-- Embeds `rev_by_cat_stage` (`streamlit_app.py` lines 145–148):
`groupby(["Category", "Stage"])["Revenue"].sum()`, one entry per occurring
group key. -/
def revenueByCategoryStage (ms : List StageMetric) : List ((String × Stage) × ℚ) :=
  (catStageKeys ms).map fun k => (k, revenueSumFor ms k.1 k.2)

/-- Summed revenue of the rows of one (category, season) group, all stages
combined. -/
def seasonSumFor (ms : List StageMetric) (c se : String) : ℚ :=
  ((ms.filter fun r => decide (r.category = c ∧ r.season = se)).map (·.revenue)).sum

/-- The (category, season) group keys occurring in a metrics table. -/
def catSeasonKeys (ms : List StageMetric) : List (String × String) :=
  (ms.map fun r => (r.category, r.season)).dedup

/-- Embeds `heat` (`streamlit_app.py` lines 210–213):
`groupby(["Category", "Season"])["Revenue"].sum()`. -/
def revenueByCategorySeason (ms : List StageMetric) : List ((String × String) × ℚ) :=
  (catSeasonKeys ms).map fun k => (k, seasonSumFor ms k.1 k.2)

/-- The categories observed in a metrics table: the row index of the pivot. -/
def obsCats (ms : List StageMetric) : List String :=
  (ms.map (·.category)).dedup

/-- The stages observed in a metrics table: the column index of the pivot. -/
def obsStages (ms : List StageMetric) : List Stage :=
  (ms.map (·.stage)).dedup

/-- Embeds `rev_pivot` (`streamlit_app.py` lines 149–154):
`pivot(index="Category", columns="Stage", values="Revenue").fillna(0)`.
The pivot grid covers observed categories × observed stages; a grid cell with
no contributing group is `NaN` and is filled with `0`; a (category, stage)
pair outside the grid is a missing key (`none`).  The display-only
`round(0).astype(int)` step is dropped: it does not alter which keys exist
nor the exact-zero cells. -/
def revPivot (ms : List StageMetric) (c : String) (s : Stage) : Option ℚ :=
  if c ∈ obsCats ms ∧ s ∈ obsStages ms then some (revenueSumFor ms c s) else none

/-- First-occurrence argmax, the semantics of pandas `Series.idxmax`:
the earliest element attaining the maximum of `f` wins. -/
def firstArgmaxBy {α : Type} (f : α → ℚ) : List α → Option α
  | [] => none
  | x :: xs =>
    match firstArgmaxBy f xs with
    | none => some x
    | some y => if f x < f y then some y else some x

/-- Summed revenue of the rows of one stage. -/
def stageRevenueSum (ms : List StageMetric) (s : Stage) : ℚ :=
  ((ms.filter fun r => decide (r.stage = s)).map (·.revenue)).sum

/-- Embeds `stage_rev` (`streamlit_app.py` lines 102–106):
`groupby("Stage")["Revenue"].sum().reindex(["M1", "M2", "M3", "M4"])` — the
reindexed series holds the group sum at an observed stage and `NaN` (`none`)
at a stage with no row. -/
def stageRevSeries (ms : List StageMetric) (s : Stage) : Option ℚ :=
  if s ∈ obsStages ms then some (stageRevenueSum ms s) else none

/-- Embeds `best_stage = stage_rev.idxmax()` (`streamlit_app.py` line 107): first
maximum over the reindexed series in canonical stage order, `NaN` entries
skipped (pandas `idxmax` default); `none` on an all-`NaN` series, which the
code rules out by guarding on a non-empty `filtered_long`. -/
def bestStageOverall (ms : List StageMetric) : Option Stage :=
  (firstArgmaxBy (fun p => p.2)
    (Stage.all.filterMap fun s => (stageRevSeries ms s).map fun v => (s, v))).map
    (fun p => p.1)

/-- Embeds `prod_metrics.sort_values("Stage")` (`streamlit_app.py` line 295):
sort the rows by their stage label. -/
def sortByStage (ms : List StageMetric) : List StageMetric :=
  ms.mergeSort fun a b => decide (a.stage.idx ≤ b.stage.idx)

/-- The ranking attribute of spec §4.2 operation 3. -/
inductive RankBy where
  | revenue
  | sell_through
deriving DecidableEq, Repr

/-- The column a ranking attribute reads. -/
def rankValue : RankBy → StageMetric → ℚ
  | .revenue => fun r => r.revenue
  | .sell_through => fun r => r.sell_through

/-- Embeds `best_rev_stage` / `best_sell_stage` (`streamlit_app.py` lines 315–316):
on the stage-sorted rows of one product, take
`prod_metrics.loc[prod_metrics[attr].idxmax(), "Stage"]`. -/
def bestStageFor (rb : RankBy) (rows : List StageMetric) : Option Stage :=
  (firstArgmaxBy (rankValue rb) (sortByStage rows)).map (·.stage)

/-- Spec §4.2 operation 3, `bestStagePerProduct`, assembled from the
per-product computation of `streamlit_app.py` lines 295 and 315–316: one
entry per observed product id; a product with zero rows contributes
nothing (`filterMap` drops the `none`). -/
def bestStagePerProduct (ms : List StageMetric) (rb : RankBy) :
    List (String × Stage) :=
  ((ms.map (·.product_id)).dedup).filterMap fun pid =>
    (bestStageFor rb (ms.filter fun r => decide (r.product_id = pid))).map
      fun s => (pid, s)

/-- Embeds the `prod_metrics` row selection of the product drill-down
(`streamlit_app.py` lines 289–293): the long-table rows matching the chosen
product on the triple (`Product_Name`, `Brand`, `Season`). -/
def drillDownRows (ms : List StageMetric) (name br se : String) :
    List StageMetric :=
  ms.filter fun r => decide (r.product_name = name ∧ r.brand = br ∧ r.season = se)

/-- Modelled from the spec: the required ProductRecord columns of §3 — the
input-boundary schema of §6.  Column matching itself (case and spacing) is
out of scope; names are the attribute names of §3. -/
def requiredColumns : List String :=
  ["product_id", "product_name", "category", "season", "brand",
   "original_price", "competitor_price", "seasonality_factor", "stock_level",
   "customer_rating", "return_rate", "promotion_type", "optimal_discount",
   "markdown_1", "markdown_2", "markdown_3", "markdown_4",
   "sales_after_1", "sales_after_2", "sales_after_3", "sales_after_4"]

/-- The error of spec §6/§7 naming the absent required columns. -/
structure SchemaError where
  missing : List String
deriving DecidableEq, Repr

/-- A loaded tabular dataset: its column names and the records it carries
(`load_markdown_data` in `src/data_loading.py` returns the parsed table
unvalidated). -/
structure Dataset where
  cols : List String
  records : List ProductRecord

/-- The required columns absent from a loaded dataset. -/
def missingColumns (cols : List String) : List String :=
  requiredColumns.filter fun c => decide (c ∉ cols)

/-- Modelled from the spec: the engine entry point behind
`compute_stage_metrics(df)` — absent module `src/markdown_metrics.py` — with
the input boundary of §6: fail with a `SchemaError` naming the missing
column(s) when any required column is absent, otherwise expand. -/
def runEngine (d : Dataset) : Except SchemaError (List StageMetric) :=
  if missingColumns d.cols = [] then .ok (compute_stage_metrics d.records)
  else .error ⟨missingColumns d.cols⟩

/-- Sample record carrying the test vector of spec §8: price 100, first-stage
markdown 0.2, first-stage sales 50, stock 200. -/
def pSample : ProductRecord :=
  { product_id := "P1"
    product_name := "Hydra Serum"
    category := "Skincare"
    season := "Summer"
    brand := "Glow"
    original_price := 100
    competitor_price := 95
    seasonality_factor := 1
    stock_level := 200
    customer_rating := 4
    return_rate := 1/10
    promotion_type := "None"
    optimal_discount := 3/10
    markdown_1 := 2/10
    markdown_2 := 3/10
    markdown_3 := 4/10
    markdown_4 := 5/10
    sales_after_1 := 50
    sales_after_2 := 60
    sales_after_3 := 70
    sales_after_4 := 80 }

/-- Sample record with zero stock, exercising the zero-stock policy. -/
def pZeroStock : ProductRecord :=
  { pSample with
    product_id := "P2"
    product_name := "Matte Stick"
    category := "Makeup"
    season := "Winter"
    stock_level := 0 }

/-- Sample record sharing the (name, brand, season) triple of `pSample` under
a different product id. -/
def pSameTriple : ProductRecord :=
  { pSample with
    product_id := "P3"
    original_price := 80 }

/-- A lone stage row (stage M1 only), input of the pivot-density analysis. -/
def rowM1only : StageMetric :=
  { product_id := "P9"
    product_name := "Solo"
    brand := "B"
    category := "Beauty"
    season := "Spring"
    stage := .M1
    markdown := 1/10
    sales := 5
    revenue := 45
    sell_through := 1/2 }

/-- A loaded dataset missing two required columns. -/
def dMissing : Dataset :=
  { cols := ["product_id", "product_name", "season", "brand",
             "original_price", "competitor_price", "seasonality_factor",
             "customer_rating", "return_rate", "promotion_type",
             "optimal_discount", "markdown_1", "markdown_2", "markdown_3",
             "markdown_4", "sales_after_1", "sales_after_2", "sales_after_3",
             "sales_after_4"]
    records := [] }

/-- Sample record with identical revenue at stages M1 and M3 (4000 each) and
lower revenue at M2 and M4 (1000 each), the tie scenario of spec §8. -/
def pTie : ProductRecord :=
  { pSample with
    product_id := "P4"
    product_name := "Tie Cream"
    markdown_1 := 2/10
    markdown_2 := 8/10
    markdown_3 := 2/10
    markdown_4 := 8/10
    sales_after_1 := 50
    sales_after_2 := 50
    sales_after_3 := 50
    sales_after_4 := 50 }

lemma Stage.mem_all (s : Stage) : s ∈ Stage.all := by
  cases s <;> simp [Stage.all]

lemma stageMetricOf_category (p : ProductRecord) (s : Stage) :
    (stageMetricOf p s).category = p.category := rfl

lemma stageMetricOf_season (p : ProductRecord) (s : Stage) :
    (stageMetricOf p s).season = p.season := rfl

lemma filterLong_stageRows (cats seasons : List String) (p : ProductRecord) :
    filterLong cats seasons (stageRowsOf p) =
      if p.category ∈ cats ∧ p.season ∈ seasons then stageRowsOf p else [] := by
  by_cases h : p.category ∈ cats ∧ p.season ∈ seasons <;>
    simp [filterLong, stageRowsOf, Stage.all, stageMetricOf, h]

lemma compute_stage_metrics_cons (p : ProductRecord) (l : List ProductRecord) :
    compute_stage_metrics (p :: l) = stageRowsOf p ++ compute_stage_metrics l := by
  simp [compute_stage_metrics]

lemma filterLong_append (cats seasons : List String) (l l' : List StageMetric) :
    filterLong cats seasons (l ++ l') =
      filterLong cats seasons l ++ filterLong cats seasons l' := by
  simp [filterLong]

/-- Filtering and expansion commute, with the two filters of
`streamlit_app.py` lines 89–96. -/
lemma filter_expand_comm (cats seasons : List String)
    (catalog : List ProductRecord) :
    compute_stage_metrics (filterCatalog cats seasons catalog) =
      filterLong cats seasons (compute_stage_metrics catalog) := by
  induction catalog with
  | nil => rfl
  | cons p rest ih =>
    by_cases h : p.category ∈ cats ∧ p.season ∈ seasons
    · have h1 : filterCatalog cats seasons (p :: rest) =
          p :: filterCatalog cats seasons rest := by
        simp [filterCatalog, List.filter_cons, h]
      rw [h1, compute_stage_metrics_cons, compute_stage_metrics_cons,
        filterLong_append, filterLong_stageRows, if_pos h, ih]
    · have h1 : filterCatalog cats seasons (p :: rest) =
          filterCatalog cats seasons rest := by
        simp [filterCatalog, List.filter_cons, h]
      rw [h1, compute_stage_metrics_cons, filterLong_append,
        filterLong_stageRows, if_neg h, List.nil_append, ih]

/-- C1: for every product record and every stage, the derived StageMetric row
satisfies exactly `revenue = original_price * (1 - markdown_i) * sales_after_i`
and `sell_through = sales_after_i / stock_level` when `stock_level > 0`, and
`sell_through = 0` when `stock_level = 0`, the zero-stock case being an
ordinary total computation rather than a division fault. -/
theorem c1_stage_metric_formulas (catalog : List ProductRecord)
    (p : ProductRecord) (hp : p ∈ catalog) (s : Stage) :
    ∃ r ∈ compute_stage_metrics catalog,
      r = stageMetricOf p s ∧
      r.revenue = p.original_price * (1 - p.markdownAt s) * p.salesAt s ∧
      (0 < p.stock_level → r.sell_through = p.salesAt s / (p.stock_level : ℚ)) ∧
      (p.stock_level = 0 → r.sell_through = 0) := by
  refine ⟨stageMetricOf p s, ?_, rfl, rfl, ?_, ?_⟩
  · simp only [compute_stage_metrics, List.mem_flatMap]
    exact ⟨p, hp, by
      simp only [stageRowsOf, List.mem_map]
      exact ⟨s, Stage.mem_all s, rfl⟩⟩
  · intro h
    simp [stageMetricOf, h]
  · intro h
    simp [stageMetricOf, h]

/-- C1 witness: the theorem instantiated on a concrete two-record catalog at
the spec §8 test vector, whose M1 row indeed evaluates to revenue 4000 and
sell-through 1/4, alongside a zero-stock record whose rows evaluate to
sell-through 0. -/
theorem c1_stage_metric_formulas_witness :
    (∃ r ∈ compute_stage_metrics [pSample, pZeroStock],
      r = stageMetricOf pSample Stage.M1 ∧
      r.revenue =
        pSample.original_price * (1 - pSample.markdownAt Stage.M1) *
          pSample.salesAt Stage.M1 ∧
      (0 < pSample.stock_level →
        r.sell_through = pSample.salesAt Stage.M1 / (pSample.stock_level : ℚ)) ∧
      (pSample.stock_level = 0 → r.sell_through = 0)) ∧
    (stageMetricOf pSample Stage.M1).revenue = 4000 ∧
    (stageMetricOf pSample Stage.M1).sell_through = 1/4 ∧
    (stageMetricOf pZeroStock Stage.M1).sell_through = 0 :=
  ⟨c1_stage_metric_formulas [pSample, pZeroStock] pSample (by simp) Stage.M1,
    by norm_num [stageMetricOf, pSample, ProductRecord.markdownAt,
      ProductRecord.salesAt],
    by norm_num [stageMetricOf, pSample, ProductRecord.salesAt],
    by norm_num [stageMetricOf, pZeroStock, pSample]⟩

/-- C2: expansion returns exactly `4 * len(catalog)` rows and, for the `k`-th
input record, rows `4k … 4k+3` are precisely its four stage rows in stage
order M1, M2, M3, M4, each derived from that record alone. -/
theorem c2_expansion_shape (catalog : List ProductRecord) :
    (compute_stage_metrics catalog).length = 4 * catalog.length ∧
    ∀ k (hk : k < catalog.length),
      ((compute_stage_metrics catalog).drop (4 * k)).take 4 =
        [stageMetricOf (catalog.get ⟨k, hk⟩) .M1,
         stageMetricOf (catalog.get ⟨k, hk⟩) .M2,
         stageMetricOf (catalog.get ⟨k, hk⟩) .M3,
         stageMetricOf (catalog.get ⟨k, hk⟩) .M4] := by
  constructor
  · induction catalog with
    | nil => rfl
    | cons p rest ih =>
      rw [compute_stage_metrics_cons, List.length_append, ih]
      simp [stageRowsOf, Stage.all]
      ring
  · induction catalog with
    | nil =>
      intro k hk
      exact absurd hk (by simp)
    | cons p rest ih =>
      intro k hk
      cases k with
      | zero =>
        rw [compute_stage_metrics_cons]
        rfl
      | succ n =>
        have hk' : n < rest.length := by
          simpa using Nat.lt_of_succ_lt_succ hk
        have hsplit : 4 * (n + 1) = 4 + 4 * n := by ring
        rw [compute_stage_metrics_cons, hsplit, ← List.drop_drop]
        have hdrop4 : (stageRowsOf p ++ compute_stage_metrics rest).drop 4 =
            compute_stage_metrics rest := rfl
        rw [hdrop4]
        exact ih n hk'

/-- C2 witness: the shape theorem instantiated on a concrete two-record
catalog; the second record's block (rows 4–7) evaluates to its four stage
rows in order. -/
theorem c2_expansion_shape_witness :
    ((compute_stage_metrics [pSample, pZeroStock]).drop (4 * 1)).take 4 =
      [stageMetricOf pZeroStock .M1, stageMetricOf pZeroStock .M2,
       stageMetricOf pZeroStock .M3, stageMetricOf pZeroStock .M4] :=
  (c2_expansion_shape [pSample, pZeroStock]).2 1 (by decide)

/-- C3: filter and expand commute — filtering the catalog by a
(category, season) membership predicate and then expanding yields exactly the
same StageMetric rows as expanding the full catalog and then filtering the
rows by the same predicate (the `filtered_df` / `filtered_long` pair). -/
theorem c3_filter_expand_commute (cats seasons : List String)
    (catalog : List ProductRecord) :
    compute_stage_metrics (filterCatalog cats seasons catalog) =
      filterLong cats seasons (compute_stage_metrics catalog) :=
  filter_expand_comm cats seasons catalog

lemma sum_map_filter_not {α : Type} (v : α → ℚ) (p : α → Bool) (l : List α) :
    ((l.filter p).map v).sum + ((l.filter fun x => !(p x)).map v).sum
      = (l.map v).sum := by
  induction l with
  | nil => simp
  | cons a t ih =>
    cases h : p a <;> simp [List.filter_cons, h] <;> linarith [ih]

/-- Summing group-by-key sums over a duplicate-free covering key list gives
the total sum: groups partition the rows. -/
lemma sum_over_keys {α κ : Type} [DecidableEq κ] (key : α → κ) (v : α → ℚ) :
    ∀ (ks : List κ) (l : List α), ks.Nodup → (∀ x ∈ l, key x ∈ ks) →
      (ks.map fun k =>
        ((l.filter fun x => decide (key x = k)).map v).sum).sum
        = (l.map v).sum := by
  intro ks
  induction ks with
  | nil =>
    intro l _ hcov
    have hl : l = [] := List.eq_nil_iff_forall_not_mem.mpr
      (fun x hx => by simpa using hcov x hx)
    subst hl
    simp
  | cons k kt ih =>
    intro l hnd hcov
    have hknot : k ∉ kt := (List.nodup_cons.mp hnd).1
    have hnd' : kt.Nodup := (List.nodup_cons.mp hnd).2
    have hcov' : ∀ x ∈ l.filter fun x => !(decide (key x = k)), key x ∈ kt := by
      intro x hx
      rw [List.mem_filter] at hx
      have h2 : ¬ key x = k := by simpa using hx.2
      have h1 := hcov x hx.1
      simpa [h2] using h1
    have hfil : ∀ k' ∈ kt,
        (l.filter fun x => !(decide (key x = k))).filter
            (fun x => decide (key x = k'))
          = l.filter fun x => decide (key x = k') := by
      intro k' hk'
      rw [List.filter_filter]
      apply List.filter_congr
      intro x _
      by_cases h : key x = k'
      · have hne : ¬ k' = k := fun hkk => hknot (hkk ▸ hk')
        have hnex : ¬ key x = k := fun hxk => hne (by rw [← h, hxk])
        simp [h, hne, hnex]
      · simp [h]
    have hmap : (kt.map fun k' =>
          ((l.filter fun x => decide (key x = k')).map v).sum).sum
        = (((l.filter fun x => !(decide (key x = k))).map v).sum) := by
      rw [← ih (l.filter fun x => !(decide (key x = k))) hnd' hcov']
      apply congrArg
      apply List.map_congr_left
      intro k' hk'
      rw [hfil k' hk']
    rw [List.map_cons, List.sum_cons, hmap]
    exact sum_map_filter_not v (fun x => decide (key x = k)) l

lemma revenueSumFor_eq_key (ms : List StageMetric) (c : String) (s : Stage) :
    revenueSumFor ms c s =
      ((ms.filter fun x => decide ((x.category, x.stage) = (c, s))).map
        (·.revenue)).sum := by
  unfold revenueSumFor
  apply congrArg
  apply congrArg
  apply List.filter_congr
  intro x _
  simp [decide_eq_decide, Prod.ext_iff]

/-- C4: conservation of total revenue under regrouping — the values of
`revenueByCategoryStage` summed over all its (category, stage) entries equal
the sum of the revenue column over the whole input. -/
theorem c4_revenue_conservation (ms : List StageMetric) :
    ((revenueByCategoryStage ms).map (·.2)).sum = (ms.map (·.revenue)).sum := by
  have hcov : ∀ x ∈ ms,
      (fun r : StageMetric => (r.category, r.stage)) x ∈ catStageKeys ms := by
    intro x hx
    simp only [catStageKeys, List.mem_dedup, List.mem_map]
    exact ⟨x, hx, rfl⟩
  have h := sum_over_keys (fun r : StageMetric => (r.category, r.stage))
    (fun r => r.revenue) (catStageKeys ms) ms (List.nodup_dedup _) hcov
  rw [revenueByCategoryStage, List.map_map, ← h]
  apply congrArg
  apply List.map_congr_left
  intro k _
  simp only [Function.comp_apply]
  rw [revenueSumFor_eq_key]

/-- C8: an empty filtered set is a normal result — expansion of an empty
catalog is the empty sequence and every aggregation operation returns an
empty mapping on an empty StageMetric sequence (all the embedded operations
are total functions: no exception path exists). -/
theorem c8_empty_inputs :
    compute_stage_metrics [] = [] ∧
    revenueByCategoryStage [] = [] ∧
    revenueByCategorySeason [] = [] ∧
    (∀ rb : RankBy, bestStagePerProduct [] rb = []) :=
  ⟨rfl, rfl, rfl, fun _ => rfl⟩

/-- C5 counterexample: on the non-empty StageMetric input `[rowM1only]`,
whose only row is at stage M1, the category "Beauty" is observed and yet the
pivot has no entry at ("Beauty", M2): the pivot's column index only holds
observed stages, so a stage absent from the whole input is a missing key,
not a zero cell. -/
theorem c5_pivot_counterexample :
    ([rowM1only] : List StageMetric) ≠ [] ∧
    "Beauty" ∈ obsCats [rowM1only] ∧
    revPivot [rowM1only] "Beauty" Stage.M2 = none := by
  refine ⟨by simp, by simp [obsCats, rowM1only], ?_⟩
  simp [revPivot, obsStages, rowM1only]

/-- C5 (amended): for every StageMetric input in which each of the four
stages occurs in some row — as holds for every non-empty expansion output and
its category/season filterings — the pivot has an entry for every pair of an
observed category and any stage whatever, and that entry is 0 when no input
row contributes to the pair. -/
theorem c5_pivot_dense_amended (ms : List StageMetric)
    (hall : ∀ s : Stage, s ∈ obsStages ms) (c : String) (hc : c ∈ obsCats ms)
    (s : Stage) :
    revPivot ms c s = some (revenueSumFor ms c s) ∧
    ((ms.filter fun r => decide (r.category = c ∧ r.stage = s)) = [] →
      revPivot ms c s = some 0) := by
  have h1 : revPivot ms c s = some (revenueSumFor ms c s) := by
    simp [revPivot, hc, hall s]
  refine ⟨h1, fun hempty => ?_⟩
  rw [h1]
  unfold revenueSumFor
  rw [hempty]
  rfl

/-- C5 witness: the amended density theorem instantiated on the expansion of
the one-record catalog `[pSample]` at the observed category "Skincare" and
stage M2. -/
theorem c5_pivot_dense_amended_witness :
    revPivot (compute_stage_metrics [pSample]) "Skincare" Stage.M2 =
      some (revenueSumFor (compute_stage_metrics [pSample]) "Skincare"
        Stage.M2) ∧
    (((compute_stage_metrics [pSample]).filter fun r =>
        decide (r.category = "Skincare" ∧ r.stage = Stage.M2)) = [] →
      revPivot (compute_stage_metrics [pSample]) "Skincare" Stage.M2 =
        some 0) :=
  c5_pivot_dense_amended (compute_stage_metrics [pSample])
    (by intro s; cases s <;> decide) "Skincare" (by decide) Stage.M2

/-- C9: loading a tabular dataset that lacks a required ProductRecord column
makes the engine fail with a `SchemaError` naming every missing required
column, and no result is produced. -/
theorem c9_schema_error (d : Dataset) (c : String)
    (hc : c ∈ requiredColumns) (hnc : c ∉ d.cols) :
    runEngine d = Except.error ⟨missingColumns d.cols⟩ ∧
    c ∈ missingColumns d.cols ∧
    (∀ c' ∈ requiredColumns, c' ∉ d.cols → c' ∈ missingColumns d.cols) ∧
    ∀ res, runEngine d ≠ Except.ok res := by
  have hcm : c ∈ missingColumns d.cols := by
    simp [missingColumns, List.mem_filter, hc, hnc]
  have hne : missingColumns d.cols ≠ [] := by
    intro h0
    rw [h0] at hcm
    exact absurd hcm (List.not_mem_nil c)
  have he : runEngine d = Except.error ⟨missingColumns d.cols⟩ := by
    simp [runEngine, hne]
  refine ⟨he, hcm, ?_, ?_⟩
  · intro c' hc' hnc'
    simp [missingColumns, List.mem_filter, hc', hnc']
  · intro res
    rw [he]
    simp

/-- C9 witness: the schema theorem instantiated on a concrete dataset whose
column list lacks `category` (and `stock_level`). -/
theorem c9_schema_error_witness :
    runEngine dMissing = Except.error ⟨missingColumns dMissing.cols⟩ ∧
    "category" ∈ missingColumns dMissing.cols ∧
    (∀ c' ∈ requiredColumns, c' ∉ dMissing.cols →
      c' ∈ missingColumns dMissing.cols) ∧
    ∀ res, runEngine dMissing ≠ Except.ok res :=
  c9_schema_error dMissing "category" (by decide) (by decide)

lemma firstArgmaxBy_cons_some {α : Type} (f : α → ℚ) (x : α) {xs : List α}
    {y : α} (h : firstArgmaxBy f xs = some y) :
    firstArgmaxBy f (x :: xs) = if f x < f y then some y else some x := by
  simp [firstArgmaxBy, h]

/-- Case analysis of the first-occurrence argmax on a four-element list:
the winner is the earliest element whose value no later element exceeds and
that strictly exceeds every earlier element. -/
lemma firstArgmax_four {α : Type} (f : α → ℚ) (a b c d : α) :
    (firstArgmaxBy f [a, b, c, d] = some a ∧
      f b ≤ f a ∧ f c ≤ f a ∧ f d ≤ f a) ∨
    (firstArgmaxBy f [a, b, c, d] = some b ∧
      f a < f b ∧ f c ≤ f b ∧ f d ≤ f b) ∨
    (firstArgmaxBy f [a, b, c, d] = some c ∧
      f a < f c ∧ f b < f c ∧ f d ≤ f c) ∨
    (firstArgmaxBy f [a, b, c, d] = some d ∧
      f a < f d ∧ f b < f d ∧ f c < f d) := by
  have h4 : firstArgmaxBy f [d] = some d := rfl
  rcases lt_or_le (f c) (f d) with hcd | hcd
  · have h3 : firstArgmaxBy f [c, d] = some d := by
      rw [firstArgmaxBy_cons_some f c h4, if_pos hcd]
    rcases lt_or_le (f b) (f d) with hbd | hbd
    · have h2 : firstArgmaxBy f [b, c, d] = some d := by
        rw [firstArgmaxBy_cons_some f b h3, if_pos hbd]
      rcases lt_or_le (f a) (f d) with had | had
      · have h1 : firstArgmaxBy f [a, b, c, d] = some d := by
          rw [firstArgmaxBy_cons_some f a h2, if_pos had]
        exact Or.inr (Or.inr (Or.inr ⟨h1, had, hbd, hcd⟩))
      · have h1 : firstArgmaxBy f [a, b, c, d] = some a := by
          rw [firstArgmaxBy_cons_some f a h2, if_neg (not_lt.mpr had)]
        exact Or.inl ⟨h1, by linarith, by linarith, had⟩
    · have h2 : firstArgmaxBy f [b, c, d] = some b := by
        rw [firstArgmaxBy_cons_some f b h3, if_neg (not_lt.mpr hbd)]
      rcases lt_or_le (f a) (f b) with hab | hab
      · have h1 : firstArgmaxBy f [a, b, c, d] = some b := by
          rw [firstArgmaxBy_cons_some f a h2, if_pos hab]
        exact Or.inr (Or.inl ⟨h1, hab, by linarith, hbd⟩)
      · have h1 : firstArgmaxBy f [a, b, c, d] = some a := by
          rw [firstArgmaxBy_cons_some f a h2, if_neg (not_lt.mpr hab)]
        exact Or.inl ⟨h1, hab, by linarith, by linarith⟩
  · have h3 : firstArgmaxBy f [c, d] = some c := by
      rw [firstArgmaxBy_cons_some f c h4, if_neg (not_lt.mpr hcd)]
    rcases lt_or_le (f b) (f c) with hbc | hbc
    · have h2 : firstArgmaxBy f [b, c, d] = some c := by
        rw [firstArgmaxBy_cons_some f b h3, if_pos hbc]
      rcases lt_or_le (f a) (f c) with hac | hac
      · have h1 : firstArgmaxBy f [a, b, c, d] = some c := by
          rw [firstArgmaxBy_cons_some f a h2, if_pos hac]
        exact Or.inr (Or.inr (Or.inl ⟨h1, hac, hbc, hcd⟩))
      · have h1 : firstArgmaxBy f [a, b, c, d] = some a := by
          rw [firstArgmaxBy_cons_some f a h2, if_neg (not_lt.mpr hac)]
        exact Or.inl ⟨h1, by linarith, hac, by linarith⟩
    · have h2 : firstArgmaxBy f [b, c, d] = some b := by
        rw [firstArgmaxBy_cons_some f b h3, if_neg (not_lt.mpr hbc)]
      rcases lt_or_le (f a) (f b) with hab | hab
      · have h1 : firstArgmaxBy f [a, b, c, d] = some b := by
          rw [firstArgmaxBy_cons_some f a h2, if_pos hab]
        exact Or.inr (Or.inl ⟨h1, hab, hbc, by linarith⟩)
      · have h1 : firstArgmaxBy f [a, b, c, d] = some a := by
          rw [firstArgmaxBy_cons_some f a h2, if_neg (not_lt.mpr hab)]
        exact Or.inl ⟨h1, hab, by linarith, by linarith⟩

/-- A permutation between two lists that are both sorted on a key taking
duplicate-free values is an equality. -/
lemma perm_sorted_key_eq {α : Type} (key : α → ℕ) :
    ∀ (l₁ l₂ : List α), l₁.Perm l₂ →
      l₁.Pairwise (fun x y => key x ≤ key y) →
      l₂.Pairwise (fun x y => key x ≤ key y) →
      (l₂.map key).Nodup → l₁ = l₂ := by
  intro l₁
  induction l₁ with
  | nil =>
    intro l₂ hp _ _ _
    exact List.Perm.nil_eq hp
  | cons x t ih =>
    intro l₂ hp hs1 hs2 hnd
    cases l₂ with
    | nil => exact absurd hp (by simp)
    | cons y u =>
      have hxmem : x ∈ y :: u := hp.mem_iff.mp (List.mem_cons_self x t)
      have hymem : y ∈ x :: t := hp.mem_iff.mpr (List.mem_cons_self y u)
      have hxy : x = y := by
        rcases List.mem_cons.mp hxmem with h | hxu
        · exact h
        rcases List.mem_cons.mp hymem with h | hyt
        · exact h.symm
        have hk1 : key x ≤ key y := (List.pairwise_cons.mp hs1).1 y hyt
        have hk2 : key y ≤ key x := (List.pairwise_cons.mp hs2).1 x hxu
        have hkeq : key x = key y := le_antisymm hk1 hk2
        have : key x ∈ u.map key := List.mem_map.mpr ⟨x, hxu, rfl⟩
        rw [hkeq] at this
        exact absurd this ((List.nodup_cons.mp (by simpa using hnd)).1)
      subst hxy
      have hp' : t.Perm u := hp.cons_inv
      have heq : t = u := ih u hp' (List.pairwise_cons.mp hs1).2
        (List.pairwise_cons.mp hs2).2 (by simpa using (List.nodup_cons.mp (by simpa using hnd)).2)
      rw [heq]

/-- A non-empty catalog's expansion observes all four stages. -/
lemma expand_all_stages (catalog : List ProductRecord)
    (hne : catalog ≠ []) (s : Stage) :
    s ∈ obsStages (compute_stage_metrics catalog) := by
  cases catalog with
  | nil => exact absurd rfl hne
  | cons q rest =>
    rw [obsStages, List.mem_dedup, compute_stage_metrics_cons]
    refine List.mem_map.mpr ⟨stageMetricOf q s, ?_, rfl⟩
    refine List.mem_append_left _ ?_
    exact List.mem_map.mpr ⟨s, Stage.mem_all s, rfl⟩

/-- On a metrics table observing all four stages, `idxmax` over the reindexed
stage-revenue series returns a stage of maximal summed revenue and, on exact
ties, the lowest-numbered one. -/
lemma bestStageOverall_spec (ms : List StageMetric)
    (hall : ∀ s : Stage, s ∈ obsStages ms) :
    ∃ s : Stage, bestStageOverall ms = some s ∧
      (∀ t : Stage, stageRevenueSum ms t ≤ stageRevenueSum ms s) ∧
      (∀ t : Stage, stageRevenueSum ms t = stageRevenueSum ms s →
        s.idx ≤ t.idx) := by
  have hser : ∀ s : Stage, stageRevSeries ms s = some (stageRevenueSum ms s) := by
    intro s
    simp [stageRevSeries, hall s]
  have hlist : (Stage.all.filterMap fun s =>
      (stageRevSeries ms s).map fun v => (s, v)) =
      [(Stage.M1, stageRevenueSum ms .M1), (Stage.M2, stageRevenueSum ms .M2),
       (Stage.M3, stageRevenueSum ms .M3),
       (Stage.M4, stageRevenueSum ms .M4)] := by
    simp [Stage.all, List.filterMap_cons, hser]
  have h4 := firstArgmax_four (fun p : Stage × ℚ => p.2)
    (Stage.M1, stageRevenueSum ms .M1) (Stage.M2, stageRevenueSum ms .M2)
    (Stage.M3, stageRevenueSum ms .M3) (Stage.M4, stageRevenueSum ms .M4)
  rw [bestStageOverall, hlist]
  simp only at h4
  rcases h4 with ⟨he, hb, hc, hd⟩ | ⟨he, ha, hc, hd⟩ | ⟨he, ha, hb, hd⟩ |
    ⟨he, ha, hb, hc⟩
  · refine ⟨.M1, by rw [he]; rfl, ?_, ?_⟩
    · intro t
      cases t <;> first | rfl | assumption
    · intro t _
      cases t <;> simp [Stage.idx]
  · refine ⟨.M2, by rw [he]; rfl, ?_, ?_⟩
    · intro t
      cases t <;> first | rfl | linarith
    · intro t h
      cases t <;> simp only [Stage.idx] <;> first | omega | linarith
  · refine ⟨.M3, by rw [he]; rfl, ?_, ?_⟩
    · intro t
      cases t <;> first | rfl | linarith
    · intro t h
      cases t <;> simp only [Stage.idx] <;> first | omega | linarith
  · refine ⟨.M4, by rw [he]; rfl, ?_, ?_⟩
    · intro t
      cases t <;> first | rfl | linarith
    · intro t h
      cases t <;> simp only [Stage.idx] <;> first | omega | linarith

/-- C7: on every non-empty filtered StageMetric set, `bestStageOverall`
returns the stage whose summed revenue over the set is maximal, the
lowest-numbered stage on exact ties. -/
theorem c7_best_stage_overall (catalog : List ProductRecord)
    (cats seasons : List String)
    (hne : filterLong cats seasons (compute_stage_metrics catalog) ≠ []) :
    ∃ s : Stage,
      bestStageOverall
        (filterLong cats seasons (compute_stage_metrics catalog)) = some s ∧
      (∀ t : Stage,
        stageRevenueSum (filterLong cats seasons (compute_stage_metrics catalog)) t ≤
          stageRevenueSum (filterLong cats seasons (compute_stage_metrics catalog)) s) ∧
      (∀ t : Stage,
        stageRevenueSum (filterLong cats seasons (compute_stage_metrics catalog)) t =
          stageRevenueSum (filterLong cats seasons (compute_stage_metrics catalog)) s →
          s.idx ≤ t.idx) := by
  have hms : filterLong cats seasons (compute_stage_metrics catalog) =
      compute_stage_metrics (filterCatalog cats seasons catalog) :=
    (filter_expand_comm cats seasons catalog).symm
  have hcat : filterCatalog cats seasons catalog ≠ [] := by
    intro h0
    apply hne
    rw [hms, h0]
    rfl
  have hall : ∀ s : Stage,
      s ∈ obsStages (filterLong cats seasons (compute_stage_metrics catalog)) := by
    intro s
    rw [hms]
    exact expand_all_stages _ hcat s
  exact bestStageOverall_spec _ hall

/-- C7 witness: the theorem instantiated on the one-record catalog
`[pSample]` with its own category and season selected. -/
theorem c7_best_stage_overall_witness :
    ∃ s : Stage,
      bestStageOverall
        (filterLong ["Skincare"] ["Summer"] (compute_stage_metrics [pSample])) =
          some s ∧
      (∀ t : Stage,
        stageRevenueSum
          (filterLong ["Skincare"] ["Summer"] (compute_stage_metrics [pSample])) t ≤
        stageRevenueSum
          (filterLong ["Skincare"] ["Summer"] (compute_stage_metrics [pSample])) s) ∧
      (∀ t : Stage,
        stageRevenueSum
          (filterLong ["Skincare"] ["Summer"] (compute_stage_metrics [pSample])) t =
        stageRevenueSum
          (filterLong ["Skincare"] ["Summer"] (compute_stage_metrics [pSample])) s →
          s.idx ≤ t.idx) :=
  c7_best_stage_overall [pSample] ["Skincare"] ["Summer"]
    (by simp [filterLong, compute_stage_metrics, stageRowsOf, Stage.all,
      stageMetricOf, pSample])

/-- Sorting by stage any permutation of four rows carrying the four distinct
stages yields exactly the stage-ordered list. -/
lemma sortByStage_four (l : List StageMetric) (r1 r2 r3 r4 : StageMetric)
    (hp : l.Perm [r1, r2, r3, r4])
    (h1 : r1.stage = .M1) (h2 : r2.stage = .M2) (h3 : r3.stage = .M3)
    (h4 : r4.stage = .M4) :
    sortByStage l = [r1, r2, r3, r4] := by
  have htrans : ∀ a b c : StageMetric,
      (fun a b : StageMetric => decide (a.stage.idx ≤ b.stage.idx)) a b →
      (fun a b : StageMetric => decide (a.stage.idx ≤ b.stage.idx)) b c →
      (fun a b : StageMetric => decide (a.stage.idx ≤ b.stage.idx)) a c := by
    intro a b c hab hbc
    simp only [decide_eq_true_eq] at hab hbc ⊢
    omega
  have htotal : ∀ a b : StageMetric,
      ((fun a b : StageMetric => decide (a.stage.idx ≤ b.stage.idx)) a b ||
       (fun a b : StageMetric => decide (a.stage.idx ≤ b.stage.idx)) b a) := by
    intro a b
    simp only [Bool.or_eq_true, decide_eq_true_eq]
    omega
  have hsorted := @List.sorted_mergeSort StageMetric
    (fun a b : StageMetric => decide (a.stage.idx ≤ b.stage.idx))
    htrans htotal l
  apply perm_sorted_key_eq (fun r : StageMetric => r.stage.idx)
  · exact (List.mergeSort_perm l _).trans hp
  · exact hsorted.imp fun h => by simpa using h
  · simp [List.pairwise_cons, h1, h2, h3, h4, Stage.idx]
  · simp [h1, h2, h3, h4, Stage.idx]

lemma bestStagePerProduct_mem (ms : List StageMetric) (rb : RankBy)
    (pid : String) (s : Stage)
    (hpid : pid ∈ (ms.map (·.product_id)).dedup)
    (hbest : bestStageFor rb
      (ms.filter fun r => decide (r.product_id = pid)) = some s) :
    (pid, s) ∈ bestStagePerProduct ms rb := by
  rw [bestStagePerProduct]
  apply List.mem_filterMap.mpr
  exact ⟨pid, hpid, by rw [hbest]; rfl⟩

/-- C6: for a product whose four stage rows are present in the metrics
table, `bestStagePerProduct` (under either ranking attribute) maps it to the
lowest-numbered stage, in canonical order M1 < M2 < M3 < M4, among the
stages attaining the maximum of that attribute. -/
theorem c6_best_stage_tiebreak (ms : List StageMetric) (pid : String)
    (r1 r2 r3 r4 : StageMetric)
    (hperm : (ms.filter fun r => decide (r.product_id = pid)).Perm
      [r1, r2, r3, r4])
    (h1 : r1.stage = .M1) (h2 : r2.stage = .M2) (h3 : r3.stage = .M3)
    (h4 : r4.stage = .M4) (rb : RankBy) :
    ∃ i ∈ [r1, r2, r3, r4],
      bestStageFor rb (ms.filter fun r => decide (r.product_id = pid)) =
        some i.stage ∧
      (pid, i.stage) ∈ bestStagePerProduct ms rb ∧
      (∀ j ∈ [r1, r2, r3, r4], rankValue rb j ≤ rankValue rb i) ∧
      (∀ j ∈ [r1, r2, r3, r4],
        rankValue rb j = rankValue rb i → i.stage.idx ≤ j.stage.idx) := by
  have hsort : sortByStage (ms.filter fun r => decide (r.product_id = pid)) =
      [r1, r2, r3, r4] := sortByStage_four _ r1 r2 r3 r4 hperm h1 h2 h3 h4
  have hpid : pid ∈ (ms.map (·.product_id)).dedup := by
    have hr1 : r1 ∈ ms.filter fun r => decide (r.product_id = pid) :=
      hperm.mem_iff.mpr (by simp)
    have hr1m := List.mem_filter.mp hr1
    rw [List.mem_dedup]
    exact List.mem_map.mpr ⟨r1, hr1m.1, by simpa using hr1m.2⟩
  have hx := firstArgmax_four (rankValue rb) r1 r2 r3 r4
  rcases hx with ⟨he, hb, hc, hd⟩ | ⟨he, ha, hc, hd⟩ | ⟨he, ha, hb, hd⟩ |
    ⟨he, ha, hb, hc⟩
  · have hbf : bestStageFor rb
        (ms.filter fun r => decide (r.product_id = pid)) = some r1.stage := by
      rw [bestStageFor, hsort, he]
      rfl
    refine ⟨r1, by simp, hbf, bestStagePerProduct_mem ms rb pid r1.stage hpid hbf,
      ?_, ?_⟩
    · intro j hj
      simp only [List.mem_cons, List.not_mem_nil, or_false] at hj
      rcases hj with rfl | rfl | rfl | rfl
      · exact le_rfl
      · exact hb
      · exact hc
      · exact hd
    · intro j hj _
      simp only [List.mem_cons, List.not_mem_nil, or_false] at hj
      rcases hj with rfl | rfl | rfl | rfl <;> rw [h1] <;> simp [Stage.idx]
  · have hbf : bestStageFor rb
        (ms.filter fun r => decide (r.product_id = pid)) = some r2.stage := by
      rw [bestStageFor, hsort, he]
      rfl
    refine ⟨r2, by simp, hbf, bestStagePerProduct_mem ms rb pid r2.stage hpid hbf,
      ?_, ?_⟩
    · intro j hj
      simp only [List.mem_cons, List.not_mem_nil, or_false] at hj
      rcases hj with rfl | rfl | rfl | rfl
      · exact le_of_lt ha
      · exact le_rfl
      · exact hc
      · exact hd
    · intro j hj heq
      simp only [List.mem_cons, List.not_mem_nil, or_false] at hj
      rcases hj with rfl | rfl | rfl | rfl
      · exact absurd heq (ne_of_lt ha)
      · exact le_rfl
      · rw [h2, h3]
        decide
      · rw [h2, h4]
        decide
  · have hbf : bestStageFor rb
        (ms.filter fun r => decide (r.product_id = pid)) = some r3.stage := by
      rw [bestStageFor, hsort, he]
      rfl
    refine ⟨r3, by simp, hbf, bestStagePerProduct_mem ms rb pid r3.stage hpid hbf,
      ?_, ?_⟩
    · intro j hj
      simp only [List.mem_cons, List.not_mem_nil, or_false] at hj
      rcases hj with rfl | rfl | rfl | rfl
      · exact le_of_lt ha
      · exact le_of_lt hb
      · exact le_rfl
      · exact hd
    · intro j hj heq
      simp only [List.mem_cons, List.not_mem_nil, or_false] at hj
      rcases hj with rfl | rfl | rfl | rfl
      · exact absurd heq (ne_of_lt ha)
      · exact absurd heq (ne_of_lt hb)
      · exact le_rfl
      · rw [h3, h4]
        decide
  · have hbf : bestStageFor rb
        (ms.filter fun r => decide (r.product_id = pid)) = some r4.stage := by
      rw [bestStageFor, hsort, he]
      rfl
    refine ⟨r4, by simp, hbf, bestStagePerProduct_mem ms rb pid r4.stage hpid hbf,
      ?_, ?_⟩
    · intro j hj
      simp only [List.mem_cons, List.not_mem_nil, or_false] at hj
      rcases hj with rfl | rfl | rfl | rfl
      · exact le_of_lt ha
      · exact le_of_lt hb
      · exact le_of_lt hc
      · exact le_rfl
    · intro j hj heq
      simp only [List.mem_cons, List.not_mem_nil, or_false] at hj
      rcases hj with rfl | rfl | rfl | rfl
      · exact absurd heq (ne_of_lt ha)
      · exact absurd heq (ne_of_lt hb)
      · exact absurd heq (ne_of_lt hc)
      · exact le_rfl

/-- C6 witness: the tie-break theorem instantiated on the expansion of
`[pTie]`, the spec §8 tie scenario (revenue 4000 at M1 and M3, 1000 at M2 and
M4), ranked by revenue. -/
theorem c6_best_stage_tiebreak_witness :
    ∃ i ∈ [stageMetricOf pTie .M1, stageMetricOf pTie .M2,
           stageMetricOf pTie .M3, stageMetricOf pTie .M4],
      bestStageFor RankBy.revenue
        ((compute_stage_metrics [pTie]).filter fun r =>
          decide (r.product_id = "P4")) = some i.stage ∧
      ("P4", i.stage) ∈
        bestStagePerProduct (compute_stage_metrics [pTie]) RankBy.revenue ∧
      (∀ j ∈ [stageMetricOf pTie .M1, stageMetricOf pTie .M2,
              stageMetricOf pTie .M3, stageMetricOf pTie .M4],
        rankValue RankBy.revenue j ≤ rankValue RankBy.revenue i) ∧
      (∀ j ∈ [stageMetricOf pTie .M1, stageMetricOf pTie .M2,
              stageMetricOf pTie .M3, stageMetricOf pTie .M4],
        rankValue RankBy.revenue j = rankValue RankBy.revenue i →
          i.stage.idx ≤ j.stage.idx) :=
  c6_best_stage_tiebreak (compute_stage_metrics [pTie]) "P4"
    (stageMetricOf pTie .M1) (stageMetricOf pTie .M2)
    (stageMetricOf pTie .M3) (stageMetricOf pTie .M4)
    (by
      have hfil : (compute_stage_metrics [pTie]).filter
          (fun r => decide (r.product_id = "P4")) =
          [stageMetricOf pTie .M1, stageMetricOf pTie .M2,
           stageMetricOf pTie .M3, stageMetricOf pTie .M4] := by
        simp [compute_stage_metrics, stageRowsOf, Stage.all, List.filter_cons,
          stageMetricOf, pTie, pSample]
      rw [hfil])
    rfl rfl rfl rfl RankBy.revenue

lemma drillDown_append (l l' : List StageMetric) (n b se : String) :
    drillDownRows (l ++ l') n b se =
      drillDownRows l n b se ++ drillDownRows l' n b se := by
  simp [drillDownRows]

lemma drillDown_stageRows (p : ProductRecord) (n b se : String) :
    drillDownRows (stageRowsOf p) n b se =
      if p.product_name = n ∧ p.brand = b ∧ p.season = se then stageRowsOf p
      else [] := by
  by_cases h : p.product_name = n ∧ p.brand = b ∧ p.season = se <;>
    simp [drillDownRows, stageRowsOf, Stage.all, stageMetricOf, h]

/-- Drill-down selection and expansion commute over the
(name, brand, season) triple. -/
lemma drillDown_expand (catalog : List ProductRecord) (n b se : String) :
    drillDownRows (compute_stage_metrics catalog) n b se =
      compute_stage_metrics (catalog.filter fun q =>
        decide (q.product_name = n ∧ q.brand = b ∧ q.season = se)) := by
  induction catalog with
  | nil => rfl
  | cons p rest ih =>
    by_cases h : p.product_name = n ∧ p.brand = b ∧ p.season = se
    · have h1 : (p :: rest).filter (fun q =>
          decide (q.product_name = n ∧ q.brand = b ∧ q.season = se)) =
          p :: rest.filter (fun q =>
            decide (q.product_name = n ∧ q.brand = b ∧ q.season = se)) := by
        simp [List.filter_cons, h]
      rw [compute_stage_metrics_cons, drillDown_append, drillDown_stageRows,
        if_pos h, h1, compute_stage_metrics_cons, ih]
    · have h1 : (p :: rest).filter (fun q =>
          decide (q.product_name = n ∧ q.brand = b ∧ q.season = se)) =
          rest.filter (fun q =>
            decide (q.product_name = n ∧ q.brand = b ∧ q.season = se)) := by
        simp [List.filter_cons, h]
      rw [compute_stage_metrics_cons, drillDown_append, drillDown_stageRows,
        if_neg h, h1, List.nil_append, ih]

/-- C10: the product drill-down selects stage rows by the triple
(`Product_Name`, `Brand`, `Season`), not by product id: when exactly one
catalog record carries the selected triple, the drill-down table is exactly
that record's four stage rows; any further record sharing the triple has all
its stage rows included as well. -/
theorem c10_drilldown_triple (catalog : List ProductRecord)
    (p : ProductRecord) :
    ((catalog.filter fun q => decide (q.product_name = p.product_name ∧
        q.brand = p.brand ∧ q.season = p.season)) = [p] →
      drillDownRows (compute_stage_metrics catalog) p.product_name p.brand
          p.season =
        [stageMetricOf p .M1, stageMetricOf p .M2, stageMetricOf p .M3,
         stageMetricOf p .M4]) ∧
    (∀ q ∈ catalog, q.product_name = p.product_name → q.brand = p.brand →
      q.season = p.season → ∀ s : Stage,
        stageMetricOf q s ∈
          drillDownRows (compute_stage_metrics catalog) p.product_name
            p.brand p.season) := by
  constructor
  · intro huni
    rw [drillDown_expand, huni]
    simp [compute_stage_metrics, stageRowsOf, Stage.all]
  · intro q hq hn hb hs s
    rw [drillDown_expand]
    have hqf : q ∈ catalog.filter fun q =>
        decide (q.product_name = p.product_name ∧ q.brand = p.brand ∧
          q.season = p.season) :=
      List.mem_filter.mpr ⟨hq, by simp [hn, hb, hs]⟩
    simp only [compute_stage_metrics, List.mem_flatMap]
    exact ⟨q, hqf, by
      simp only [stageRowsOf, List.mem_map]
      exact ⟨s, Stage.mem_all s, rfl⟩⟩

/-- C10 witness: on the two-record catalog `[pSample, pZeroStock]`, whose
triples differ, the drill-down for `pSample` is exactly its four stage rows;
and on `[pSample, pSameTriple]`, where the two records share the triple, the
shared-triple part applies to both records. -/
theorem c10_drilldown_triple_witness :
    (drillDownRows (compute_stage_metrics [pSample, pZeroStock])
        pSample.product_name pSample.brand pSample.season =
      [stageMetricOf pSample .M1, stageMetricOf pSample .M2,
       stageMetricOf pSample .M3, stageMetricOf pSample .M4]) ∧
    ∀ s : Stage,
      stageMetricOf pSameTriple s ∈
        drillDownRows (compute_stage_metrics [pSample, pSameTriple])
          pSample.product_name pSample.brand pSample.season :=
  ⟨(c10_drilldown_triple [pSample, pZeroStock] pSample).1
      (by simp [List.filter_cons, pSample, pZeroStock]),
    fun s => (c10_drilldown_triple [pSample, pSameTriple] pSample).2
      pSameTriple (by simp) rfl rfl rfl s⟩
